import Mathlib

/-!
# ChainParams (libethereum) — a shallow embedding

A verification development for `libethereum/ChainParams.cpp` (genesis
configuration handling of cpp-ethereum).  Pure functions of the source are
translated into executable Lean definitions; the external collaborators the
source consumes (the merkle-trie commitment, the JSON text parser, the
account-map parser) are either taken as function parameters or modelled from
the specification, as noted at each definition.

Machine integers: `u256` / `h256` / `h160` / `h64` values are represented as
`Nat`, with explicit bounds (`< 2 ^ 256`, …) where the fixed width matters.
Byte sequences (`dev::bytes`) are `List Nat`, each entry a byte value.
Fallible operations (C++ exceptions) return `Option`.
-/

abbrev Bytes := List Nat

/-! ## Big-endian byte strings (libdevcore CommonData `toCompactBigEndian`,
`fromBigEndian`).  `beBytesAux` is fuel-indexed so that it is structurally
recursive and evaluates inside the kernel. -/

def beBytesAux : Nat → Nat → Bytes
  | 0, _ => []
  | f + 1, n => if n = 0 then [] else beBytesAux f (n / 256) ++ [n % 256]

/-- Minimal (compact) big-endian byte representation of a `Nat`; `0 ↦ []`. -/
def beBytes (n : Nat) : Bytes := beBytesAux n n

/-- Big-endian value of a byte string (`fromBigEndian`). -/
def beLen (b : Bytes) : Nat := b.foldl (fun a c => a * 256 + c) 0

/-- Fixed-width big-endian byte representation (`FixedHash<N>` data). -/
def toBE : Nat → Nat → Bytes
  | 0, _ => []
  | k + 1, n => toBE k (n / 256) ++ [n % 256]

theorem beBytesAux_eq (f n : Nat) (h : n ≤ f) :
    beBytesAux f n = if n = 0 then [] else beBytesAux (f - 1) (n / 256) ++ [n % 256] := by
  induction f generalizing n with
  | zero =>
    have hn : n = 0 := by omega
    subst hn
    simp [beBytesAux]
  | succ f ih =>
    simp only [beBytesAux]
    rcases eq_or_ne n 0 with rfl | hn
    · simp
    · simp [hn]

theorem beBytesAux_congr (f g n : Nat) (hf : n ≤ f) (hg : n ≤ g) :
    beBytesAux f n = beBytesAux g n := by
  induction f using Nat.strong_induction_on generalizing g n with
  | _ f ih =>
    rcases eq_or_ne n 0 with rfl | hn
    · cases f <;> cases g <;> simp [beBytesAux]
    · have hf1 : 1 ≤ f := le_trans (Nat.one_le_iff_ne_zero.mpr hn) hf
      have hg1 : 1 ≤ g := le_trans (Nat.one_le_iff_ne_zero.mpr hn) hg
      have hlt : n / 256 < n := Nat.div_lt_self (Nat.pos_of_ne_zero hn) (by norm_num)
      have h1 : n / 256 ≤ f - 1 := by omega
      have h2 : n / 256 ≤ g - 1 := by omega
      have hfl : f - 1 < f := by omega
      rw [beBytesAux_eq f n hf, beBytesAux_eq g n hg, if_neg hn, if_neg hn,
        ih (f - 1) hfl (g - 1) (n / 256) h1 h2]

theorem beBytes_eq (n : Nat) :
    beBytes n = if n = 0 then [] else beBytes (n / 256) ++ [n % 256] := by
  unfold beBytes
  rw [beBytesAux_eq n n le_rfl]
  rcases eq_or_ne n 0 with rfl | hn
  · simp
  · simp only [hn, if_false]
    have hlt : n / 256 < n := Nat.div_lt_self (Nat.pos_of_ne_zero hn) (by norm_num)
    rw [beBytesAux_congr (n - 1) (n / 256) (n / 256) (by omega) le_rfl]

theorem beLen_append_singleton (b : Bytes) (c : Nat) :
    beLen (b ++ [c]) = beLen b * 256 + c := by
  simp [beLen, List.foldl_append]

theorem beLen_beBytes (n : Nat) : beLen (beBytes n) = n := by
  induction n using Nat.strong_induction_on with
  | _ n ih =>
    rw [beBytes_eq]
    rcases eq_or_ne n 0 with rfl | hn
    · simp [beLen]
    · have hlt : n / 256 < n := Nat.div_lt_self (Nat.pos_of_ne_zero hn) (by norm_num)
      rw [if_neg hn, beLen_append_singleton, ih _ hlt]
      omega

theorem beBytes_zero : beBytes 0 = [] := by rw [beBytes_eq]; simp

theorem beBytes_ne_nil (n : Nat) (h : n ≠ 0) : beBytes n ≠ [] := by
  rw [beBytes_eq, if_neg h]
  simp

theorem beBytes_length_le (n k : Nat) (h : n < 256 ^ k) : (beBytes n).length ≤ k := by
  induction k generalizing n with
  | zero => simp at h; simp [h, beBytes_zero]
  | succ k ih =>
    rw [beBytes_eq]
    rcases eq_or_ne n 0 with rfl | hn
    · simp
    · rw [if_neg hn]
      have : n / 256 < 256 ^ k := by
        rw [Nat.div_lt_iff_lt_mul (by norm_num)]
        calc n < 256 ^ (k + 1) := h
        _ = 256 ^ k * 256 := by ring
      simp only [List.length_append, List.length_singleton]
      have := ih _ this
      omega

theorem beBytes_single (n : Nat) (h1 : 0 < n) (h2 : n < 256) : beBytes n = [n] := by
  rw [beBytes_eq, if_neg (by omega), Nat.div_eq_of_lt h2, beBytes_zero,
    Nat.mod_eq_of_lt h2]
  rfl

theorem toBE_length (k n : Nat) : (toBE k n).length = k := by
  induction k generalizing n with
  | zero => rfl
  | succ k ih => simp [toBE, ih]

theorem beLen_toBE (k n : Nat) (h : n < 256 ^ k) : beLen (toBE k n) = n := by
  induction k generalizing n with
  | zero => simp at h; simp [h, toBE, beLen]
  | succ k ih =>
    have : n / 256 < 256 ^ k := by
      rw [Nat.div_lt_iff_lt_mul (by norm_num)]
      calc n < 256 ^ (k + 1) := h
      _ = 256 ^ k * 256 := by ring
    simp [toBE, beLen_append_singleton, ih _ this]
    omega

/-! ## RLP encoding (libdevcore RLP.h / RLP.cpp, `RLPStream`).
An item is framed by its first byte: a single byte below `0x80` stands for
itself; short strings use `0x80 + len`, long strings `0xb7 + lenOfLen`;
short lists `0xc0 + len`, long lists `0xf7 + lenOfLen`. -/

/-- String framing for a payload that is not a self-standing single byte. -/
def rlpStrFrame (b : Bytes) : Bytes :=
  if b.length < 56 then (0x80 + b.length) :: b
  else (0xb7 + (beBytes b.length).length) :: (beBytes b.length ++ b)

/-- `RLPStream::append(bytesConstRef)`: encode a byte string. -/
def rlpBytes (b : Bytes) : Bytes :=
  if b.length = 1 ∧ b.headD 0 < 0x80 then b else rlpStrFrame b

/-- `RLPStream::append(u256)`: integers are their compact big-endian bytes. -/
def rlpNat (n : Nat) : Bytes := rlpBytes (beBytes n)

/-- List framing: wrap an already-encoded concatenation of items. -/
def listFrame (p : Bytes) : Bytes :=
  if p.length < 56 then (0xc0 + p.length) :: p
  else (0xf7 + (beBytes p.length).length) :: (beBytes p.length ++ p)

/-! ## RLP decoding (libdevcore `RLP`), as consumed by
`ChainParams::populateFromGenesis` and `BlockHeader`. -/

/-- Total byte length (header plus payload) of the item at the head of `b`. -/
def itemLen (b : Bytes) : Option Nat :=
  match b with
  | [] => none
  | c :: rest =>
    if c < 0x80 then some 1
    else if c < 0xb8 then some (1 + (c - 0x80))
    else if c < 0xc0 then
      let ll := c - 0xb7
      if rest.length < ll then none else some (1 + ll + beLen (rest.take ll))
    else if c < 0xf8 then some (1 + (c - 0xc0))
    else
      let ll := c - 0xf7
      if rest.length < ll then none else some (1 + ll + beLen (rest.take ll))

/-- Payload (and list-ness) of the item whose raw encoding is `b`. -/
def payloadOf (b : Bytes) : Option (Bool × Bytes) :=
  match b with
  | [] => none
  | c :: rest =>
    if c < 0x80 then some (false, [c])
    else if c < 0xb8 then some (false, rest.take (c - 0x80))
    else if c < 0xc0 then
      let ll := c - 0xb7
      some (false, (rest.drop ll).take (beLen (rest.take ll)))
    else if c < 0xf8 then some (true, rest.take (c - 0xc0))
    else
      let ll := c - 0xf7
      some (true, (rest.drop ll).take (beLen (rest.take ll)))

/-- Split a list payload into the raw encodings of its items
(`RLP::operator[]` / `.data()` on each item).  Fueled for termination; the
fuel is an upper bound on the number of items. -/
def splitItems : Nat → Bytes → Option (List Bytes)
  | _, [] => some []
  | 0, _ :: _ => none
  | fuel + 1, c :: rest =>
    match itemLen (c :: rest) with
    | none => none
    | some n =>
      if n ≤ (c :: rest).length then
        match splitItems fuel ((c :: rest).drop n) with
        | none => none
        | some items => some ((c :: rest).take n :: items)
      else none

/-- A byte string is a self-delimiting item encoding: nonempty, and the
decoder finds exactly its length at the head of any extension. -/
def IsEnc (e : Bytes) : Prop :=
  e ≠ [] ∧ ∀ t : Bytes, itemLen (e ++ t) = some e.length

theorem isEnc_rlpBytes (b : Bytes) (h : b.length < 2 ^ 64) : IsEnc (rlpBytes b) := by
  unfold rlpBytes rlpStrFrame
  by_cases hb : b.length = 1 ∧ b.headD 0 < 0x80
  · obtain ⟨hb1, hb2⟩ := hb
    match b, hb1 with
    | [c], _ =>
      refine ⟨by split <;> simp, fun t => ?_⟩
      simp only [List.headD] at hb2
      simp [itemLen, hb2]
  · rw [if_neg hb]
    by_cases hlen : b.length < 56
    · rw [if_pos hlen]
      refine ⟨by simp, fun t => ?_⟩
      have h1 : ¬ (0x80 + b.length < 0x80) := by omega
      have h2 : 0x80 + b.length < 0xb8 := by omega
      simp [itemLen, h1, h2]
      omega
    · rw [if_neg hlen]
      have hpos : 0 < b.length := by omega
      have hnn : beBytes b.length ≠ [] := beBytes_ne_nil _ (by omega)
      have hll : (beBytes b.length).length ≤ 8 := beBytes_length_le _ 8 (by norm_num at h ⊢; omega)
      have hll1 : 1 ≤ (beBytes b.length).length := List.length_pos.mpr hnn
      refine ⟨by simp, fun t => ?_⟩
      have h1 : ¬ (0xb7 + (beBytes b.length).length < 0x80) := by omega
      have h2 : ¬ (0xb7 + (beBytes b.length).length < 0xb8) := by omega
      have h3 : 0xb7 + (beBytes b.length).length < 0xc0 := by omega
      simp only [List.cons_append, itemLen, h1, if_false, h2, h3, if_true]
      have hsub : 0xb7 + (beBytes b.length).length - 0xb7 = (beBytes b.length).length := by omega
      rw [hsub]
      have htake : ((beBytes b.length ++ b) ++ t).take (beBytes b.length).length
          = beBytes b.length := by
        rw [List.append_assoc, List.take_left]
      have hge : ¬ (((beBytes b.length ++ b) ++ t).length < (beBytes b.length).length) := by
        simp [List.length_append]
      rw [if_neg hge, htake, beLen_beBytes]
      simp [List.length_append]
      omega

theorem isEnc_listFrame (p : Bytes) (h : p.length < 2 ^ 64) : IsEnc (listFrame p) := by
  unfold listFrame
  by_cases hlen : p.length < 56
  · rw [if_pos hlen]
    refine ⟨by simp, fun t => ?_⟩
    have h1 : ¬ (0xc0 + p.length < 0x80) := by omega
    have h2 : ¬ (0xc0 + p.length < 0xb8) := by omega
    have h3 : ¬ (0xc0 + p.length < 0xc0) := by omega
    have h4 : 0xc0 + p.length < 0xf8 := by omega
    simp [itemLen, h1, h2, h3, h4]
    omega
  · rw [if_neg hlen]
    have hnn : beBytes p.length ≠ [] := beBytes_ne_nil _ (by omega)
    have hll : (beBytes p.length).length ≤ 8 := beBytes_length_le _ 8 (by norm_num at h ⊢; omega)
    have hll1 : 1 ≤ (beBytes p.length).length := List.length_pos.mpr hnn
    refine ⟨by simp, fun t => ?_⟩
    have h1 : ¬ (0xf7 + (beBytes p.length).length < 0x80) := by omega
    have h2 : ¬ (0xf7 + (beBytes p.length).length < 0xb8) := by omega
    have h3 : ¬ (0xf7 + (beBytes p.length).length < 0xc0) := by omega
    have h4 : ¬ (0xf7 + (beBytes p.length).length < 0xf8) := by omega
    simp only [List.cons_append, itemLen, h1, if_false, h2, h3, h4]
    have hsub : 0xf7 + (beBytes p.length).length - 0xf7 = (beBytes p.length).length := by omega
    rw [hsub]
    have htake : ((beBytes p.length ++ p) ++ t).take (beBytes p.length).length
        = beBytes p.length := by
      rw [List.append_assoc, List.take_left]
    have hge : ¬ (((beBytes p.length ++ p) ++ t).length < (beBytes p.length).length) := by
      simp [List.length_append]
    rw [if_neg hge, htake, beLen_beBytes]
    simp [List.length_append]
    omega

theorem payloadOf_rlpBytes (b : Bytes) (h : b.length < 2 ^ 64) :
    payloadOf (rlpBytes b) = some (false, b) := by
  unfold rlpBytes rlpStrFrame
  by_cases hb : b.length = 1 ∧ b.headD 0 < 0x80
  · obtain ⟨hb1, hb2⟩ := hb
    match b, hb1 with
    | [c], _ =>
      simp only [List.headD] at hb2
      simp [payloadOf, hb2]
  · rw [if_neg hb]
    by_cases hlen : b.length < 56
    · rw [if_pos hlen]
      have h1 : ¬ (0x80 + b.length < 0x80) := by omega
      have h2 : 0x80 + b.length < 0xb8 := by omega
      simp [payloadOf, h1, h2]
    · rw [if_neg hlen]
      have hnn : beBytes b.length ≠ [] := beBytes_ne_nil _ (by omega)
      have hll : (beBytes b.length).length ≤ 8 := beBytes_length_le _ 8 (by norm_num at h ⊢; omega)
      have hll1 : 1 ≤ (beBytes b.length).length := List.length_pos.mpr hnn
      have h1 : ¬ (0xb7 + (beBytes b.length).length < 0x80) := by omega
      have h2 : ¬ (0xb7 + (beBytes b.length).length < 0xb8) := by omega
      have h3 : 0xb7 + (beBytes b.length).length < 0xc0 := by omega
      simp only [payloadOf, h1, if_false, h2, h3, if_true]
      have hsub : 0xb7 + (beBytes b.length).length - 0xb7 = (beBytes b.length).length := by omega
      rw [hsub, List.take_left, beLen_beBytes, List.drop_left, List.take_length]

theorem payloadOf_listFrame (p : Bytes) (h : p.length < 2 ^ 64) :
    payloadOf (listFrame p) = some (true, p) := by
  unfold listFrame
  by_cases hlen : p.length < 56
  · rw [if_pos hlen]
    have h1 : ¬ (0xc0 + p.length < 0x80) := by omega
    have h2 : ¬ (0xc0 + p.length < 0xb8) := by omega
    have h3 : ¬ (0xc0 + p.length < 0xc0) := by omega
    have h4 : 0xc0 + p.length < 0xf8 := by omega
    simp [payloadOf, h1, h2, h3, h4]
  · rw [if_neg hlen]
    have hnn : beBytes p.length ≠ [] := beBytes_ne_nil _ (by omega)
    have hll : (beBytes p.length).length ≤ 8 := beBytes_length_le _ 8 (by norm_num at h ⊢; omega)
    have hll1 : 1 ≤ (beBytes p.length).length := List.length_pos.mpr hnn
    have h1 : ¬ (0xf7 + (beBytes p.length).length < 0x80) := by omega
    have h2 : ¬ (0xf7 + (beBytes p.length).length < 0xb8) := by omega
    have h3 : ¬ (0xf7 + (beBytes p.length).length < 0xc0) := by omega
    have h4 : ¬ (0xf7 + (beBytes p.length).length < 0xf8) := by omega
    simp only [payloadOf, h1, if_false, h2, h3, h4]
    have hsub : 0xf7 + (beBytes p.length).length - 0xf7 = (beBytes p.length).length := by omega
    rw [hsub, List.take_left, beLen_beBytes, List.drop_left, List.take_length]

theorem splitItems_flatten (items : List Bytes) (fuel : Nat)
    (henc : ∀ e ∈ items, IsEnc e) (hfuel : items.length ≤ fuel) :
    splitItems fuel items.flatten = some items := by
  induction items generalizing fuel with
  | nil => cases fuel <;> rfl
  | cons e rest ih =>
    obtain ⟨hne, hlen⟩ := henc e (by simp)
    obtain ⟨c, e', rfl⟩ : ∃ c e', e = c :: e' := by
      cases e with
      | nil => exact absurd rfl hne
      | cons c e' => exact ⟨c, e', rfl⟩
    obtain ⟨f, rfl⟩ : ∃ f, fuel = f + 1 := by
      cases fuel with
      | zero => simp at hfuel
      | succ f => exact ⟨f, rfl⟩
    have h1 : itemLen (c :: (e' ++ rest.flatten)) = some (c :: e').length := by
      have := hlen rest.flatten
      simpa using this
    have hdrop : (c :: (e' ++ rest.flatten)).drop (c :: e').length = rest.flatten := by
      have heq : (c :: (e' ++ rest.flatten) : Bytes) = (c :: e') ++ rest.flatten := by simp
      rw [heq, List.drop_left]
    have htake : (c :: (e' ++ rest.flatten)).take (c :: e').length = c :: e' := by
      have heq : (c :: (e' ++ rest.flatten) : Bytes) = (c :: e') ++ rest.flatten := by simp
      rw [heq, List.take_left]
    have h2 : (c :: e').length ≤ (c :: (e' ++ rest.flatten)).length := by simp
    have hrec := ih f (fun x hx => henc x (List.mem_cons_of_mem _ hx)) (by simpa using hfuel)
    simp only [List.flatten_cons, List.cons_append, splitItems, List.append_eq, h1, if_pos h2,
      hdrop, htake, hrec]

theorem flatten_length_ge (items : List Bytes) (h : ∀ e ∈ items, e ≠ []) :
    items.length ≤ items.flatten.length := by
  induction items with
  | nil => simp
  | cons e rest ih =>
    have h1 : e ≠ [] := h e (by simp)
    have h2 : 1 ≤ e.length := List.length_pos.mpr h1
    have := ih (fun x hx => h x (by simp [hx]))
    simp only [List.flatten_cons, List.length_append, List.length_cons]
    omega

/-- `splitItems` at its natural fuel recovers the items of a well-formed
concatenation of encodings. -/
theorem splitItems_flatten_self (items : List Bytes)
    (henc : ∀ e ∈ items, IsEnc e) :
    splitItems items.flatten.length items.flatten = some items :=
  splitItems_flatten items _ henc (flatten_length_ge items fun e he => (henc e he).1)

/-! ## Field conversions used by `BlockHeader` on header items
(`toHash<h256> / toHash<h160> / toHash<h2048>` with `VeryStrict`,
`toInt<u256>`, `toBytes`). -/

/-- `RLP::toHash<FixedHash<k>>(VeryStrict)`: a data item of exactly `k`
payload bytes, as a big-endian number. -/
def toH (k : Nat) (e : Bytes) : Option Nat :=
  match payloadOf e with
  | some (false, p) => if p.length = k then some (beLen p) else none
  | _ => none

/-- `RLP::toInt<u256>`: a data item of at most `k` payload bytes. -/
def toNatLe (k : Nat) (e : Bytes) : Option Nat :=
  match payloadOf e with
  | some (false, p) => if p.length ≤ k then some (beLen p) else none
  | _ => none

/-- `RLP::toBytes`: the payload of a data item. -/
def toBytesItem (e : Bytes) : Option Bytes :=
  match payloadOf e with
  | some (false, p) => some p
  | _ => none

theorem toH_toBE (k n : Nat) (hk64 : k < 2 ^ 64) (h : n < 256 ^ k) :
    toH k (rlpBytes (toBE k n)) = some n := by
  have hp := payloadOf_rlpBytes (toBE k n) (by rw [toBE_length]; omega)
  simp [toH, hp, toBE_length, beLen_toBE _ _ h]

theorem toNatLe_rlpNat (k n : Nat) (h : n < 256 ^ k) (hk : k < 2 ^ 64) :
    toNatLe k (rlpNat n) = some n := by
  have hlen : (beBytes n).length ≤ k := beBytes_length_le _ _ h
  have hp := payloadOf_rlpBytes (beBytes n) (by omega)
  simp [rlpNat, toNatLe, hp, hlen, beLen_beBytes]

theorem toBytesItem_rlpBytes (b : Bytes) (h : b.length < 2 ^ 64) :
    toBytesItem (rlpBytes b) = some b := by
  simp [toBytesItem, payloadOf_rlpBytes b h]

/-! ## RLP item trees, for stating canonical-structure results. -/

inductive Rlp where
  | str : Bytes → Rlp
  | list : List Rlp → Rlp
deriving Repr

mutual

/-- Canonical encoding of an RLP item tree. -/
def Rlp.encode : Rlp → Bytes
  | .str b => rlpBytes b
  | .list rs => listFrame (Rlp.encodeList rs)

/-- Concatenation of the encodings of a sequence of items. -/
def Rlp.encodeList : List Rlp → Bytes
  | [] => []
  | r :: rs => r.encode ++ Rlp.encodeList rs

end

theorem Rlp.encodeList_append (a b : List Rlp) :
    Rlp.encodeList (a ++ b) = Rlp.encodeList a ++ Rlp.encodeList b := by
  induction a with
  | nil => simp [Rlp.encodeList]
  | cons r rs ih => simp [Rlp.encodeList, ih]

theorem Rlp.encodeList_eq_flatten (rs : List Rlp) :
    Rlp.encodeList rs = (rs.map Rlp.encode).flatten := by
  induction rs with
  | nil => simp [Rlp.encodeList]
  | cons r rest ih => simp [Rlp.encodeList, ih]

/-! ## The data model (`ChainParams` aggregate, ChainParams.h).
`precompiled` and `genesisState` contents are owned by external
collaborators; they are carried as association lists keyed by address. -/

/-- Account record (libethereum `Account`), opaque to this core beyond its
presence: balance, nonce, EVM code. -/
structure Account where
  nonce : Nat
  balance : Nat
  code : Bytes
deriving Repr, DecidableEq

abbrev AccountMap := List (Nat × Account)

/-- Precompiled-contract descriptor (libethcore `PrecompiledContract`),
opaque to this core. -/
structure PrecompiledContract where
  name : String
deriving Repr, DecidableEq

abbrev PrecompiledMap := List (Nat × PrecompiledContract)

/-- The `ChainParams` aggregate. -/
structure ChainParams where
  sealEngineName : String
  accountStartNonce : Nat
  maximumExtraDataSize : Nat
  tieBreakingGas : Bool
  blockReward : Nat
  otherParams : List (String × String)
  precompiled : PrecompiledMap
  genesisState : AccountMap
  stateRoot : Nat
  parentHash : Nat
  author : Nat
  difficulty : Nat
  gasLimit : Nat
  gasUsed : Nat
  timestamp : Nat
  extraData : Bytes
  sealFields : Nat
  sealRLP : Bytes
deriving Repr, DecidableEq

/-! Association-list operations with `std::map` / `unordered_map`
update semantics (`operator[]=` overwrites or appends). -/

def apLookup (m : List (String × String)) (k : String) : Option String :=
  match m with
  | [] => none
  | (k', v) :: rest => if k' = k then some v else apLookup rest k

def apInsert : List (String × String) → String → String → List (String × String)
  | [], k, v => [(k, v)]
  | (k', v') :: rest, k, v =>
    if k' = k then (k, v) :: rest else (k', v') :: apInsert rest k v

/-- The element-by-element map copy in the copy constructor
(`for (auto i: _org.otherParams) otherParams[i.first] = i.second`). -/
def apCopy (m : List (String × String)) : List (String × String) :=
  m.foldl (fun acc p => apInsert acc p.1 p.2) []

/-- `ChainParams::ChainParams(ChainParams const&)` — the field-by-field copy
constructor (source lines 42–63). -/
def ChainParams.copy (org : ChainParams) : ChainParams :=
  { sealEngineName := org.sealEngineName
    accountStartNonce := org.accountStartNonce
    maximumExtraDataSize := org.maximumExtraDataSize
    tieBreakingGas := org.tieBreakingGas
    blockReward := org.blockReward
    otherParams := apCopy org.otherParams
    precompiled := org.precompiled
    genesisState := org.genesisState
    stateRoot := org.stateRoot
    parentHash := org.parentHash
    author := org.author
    difficulty := org.difficulty
    gasLimit := org.gasLimit
    gasUsed := org.gasUsed
    timestamp := org.timestamp
    extraData := org.extraData
    sealFields := org.sealFields
    sealRLP := org.sealRLP }

theorem apInsert_of_not_mem (m : List (String × String)) (k v : String)
    (h : ∀ p ∈ m, p.1 ≠ k) : apInsert m k v = m ++ [(k, v)] := by
  induction m with
  | nil => rfl
  | cons p rest ih =>
    obtain ⟨k', v'⟩ := p
    have hk : k' ≠ k := h (k', v') (by simp)
    show (if k' = k then (k, v) :: rest else (k', v') :: apInsert rest k v) = _
    rw [if_neg hk, ih (fun q hq => h q (List.mem_cons_of_mem _ hq))]
    rfl

theorem apLookup_apInsert_self (m : List (String × String)) (k v : String) :
    apLookup (apInsert m k v) k = some v := by
  induction m with
  | nil => simp [apInsert, apLookup]
  | cons p rest ih =>
    obtain ⟨k', v'⟩ := p
    by_cases hk : k' = k
    · simp [apInsert, hk, apLookup]
    · simp [apInsert, hk, apLookup, ih]

theorem apLookup_apInsert_ne (m : List (String × String)) (k k' v : String)
    (h : k' ≠ k) : apLookup (apInsert m k' v) k = apLookup m k := by
  induction m with
  | nil => simp [apInsert, apLookup, h]
  | cons p rest ih =>
    obtain ⟨k0, v0⟩ := p
    show apLookup (if k0 = k' then (k', v) :: rest else (k0, v0) :: apInsert rest k' v) k = _
    by_cases hk : k0 = k'
    · rw [if_pos hk]
      show (if k' = k then some v else apLookup rest k) = _
      rw [if_neg h]
      show _ = (if k0 = k then some v0 else apLookup rest k)
      rw [if_neg (by rw [hk]; exact h)]
    · rw [if_neg hk]
      show (if k0 = k then some v0 else apLookup (apInsert rest k' v) k) =
           (if k0 = k then some v0 else apLookup rest k)
      rw [ih]

theorem apCopy_nodup (m : List (String × String)) (h : (m.map Prod.fst).Nodup) :
    apCopy m = m := by
  suffices hgen : ∀ acc : List (String × String),
      (∀ p ∈ m, ∀ q ∈ acc, q.1 ≠ p.1) →
      m.foldl (fun acc p => apInsert acc p.1 p.2) acc = acc ++ m by
    simpa using hgen [] (by simp)
  induction m with
  | nil => intro acc _; simp
  | cons p rest ih =>
    intro acc hacc
    have hp1 : ∀ q ∈ acc, q.1 ≠ p.1 := fun q hq => hacc p (by simp) q hq
    have hins : apInsert acc p.1 p.2 = acc ++ [(p.1, p.2)] :=
      apInsert_of_not_mem _ _ _ fun q hq => hp1 q hq
    simp only [List.map_cons, List.nodup_cons] at h
    have hrest : ∀ r ∈ rest, ∀ q ∈ acc ++ [(p.1, p.2)], q.1 ≠ r.1 := by
      intro r hr q hq
      rcases List.mem_append.mp hq with hq | hq
      · exact hacc r (by simp [hr]) q hq
      · simp only [List.mem_singleton] at hq
        subst hq
        intro he
        apply h.1
        rw [he]
        exact List.mem_map_of_mem Prod.fst hr
    have := ih h.2 (acc ++ [(p.1, p.2)]) hrest
    rw [List.foldl_cons, hins, this]
    simp

/-- Copying is the identity on any map whose keys are unique (every value the
program builds). -/
theorem ChainParams.copy_eq (org : ChainParams)
    (h : (org.otherParams.map Prod.fst).Nodup) : org.copy = org := by
  unfold ChainParams.copy
  rw [apCopy_nodup _ h]

/-! ## Genesis block assembly (`ChainParams::genesisBlock`,
`ChainParams::calculateStateRoot`, source lines 183–222).
The secure-trie commitment (libdevcore TrieDB + `dev::eth::commit`) is an
external collaborator; it enters as the function parameter `tr`, mapping an
account map to its trie root hash. -/

/-- `BlockHeader::BasicFields` (libethcore BlockHeader.h). -/
def BasicFields : Nat := 13

/-- `dev::EmptyListSHA3 = sha3(rlp(""))` for the empty uncle list — a
compile-time constant of libdevcore SHA3.h. -/
def emptyListSHA3 : Nat :=
  0x1dcc4de8dec75d7aab85b567b6ccd41ad312451b948a7413f0a142fd40d49347

/-- `dev::EmptyTrie = sha3(rlp(0x80))`, the root of the empty trie — a
compile-time constant of libdevcore (TrieHash). -/
def emptyTrieHash : Nat :=
  0x56e81f171bcc55a6ff8345e692c0f86e5b48e01b996cadc001622fb5e363b421

/-- `ChainParams::calculateStateRoot` (source lines 183–196): memoized trie
commitment.  Returns the root and the object state after the call (the
`stateRoot` member is written when it was zero). -/
def calcStateRoot (tr : AccountMap → Nat) (cp : ChainParams) : Nat × ChainParams :=
  if cp.stateRoot = 0 then
    let r := tr cp.genesisState
    (r, { cp with stateRoot := r })
  else (cp.stateRoot, cp)

/-- The header-list payload appended by `genesisBlock()` (source lines
204–218): the thirteen `BlockHeader::BasicFields` followed by the raw
`sealRLP` bytes. -/
def headerPayload (cp : ChainParams) (root : Nat) : Bytes :=
  rlpBytes (toBE 32 cp.parentHash) ++
  rlpBytes (toBE 32 emptyListSHA3) ++
  rlpBytes (toBE 20 cp.author) ++
  rlpBytes (toBE 32 root) ++
  rlpBytes (toBE 32 emptyTrieHash) ++
  rlpBytes (toBE 32 emptyTrieHash) ++
  rlpBytes (List.replicate 256 0) ++
  rlpNat cp.difficulty ++
  rlpNat 0 ++
  rlpNat cp.gasLimit ++
  rlpNat cp.gasUsed ++
  rlpNat cp.timestamp ++
  rlpBytes cp.extraData ++
  cp.sealRLP

/-- `ChainParams::genesisBlock` (source lines 198–222) with the state of the
object after the call: a three-item outer list holding the header list, then
`RLPEmptyList` twice (`0xc0` each). -/
def genesisBlockRun (tr : AccountMap → Nat) (cp : ChainParams) : Bytes × ChainParams :=
  let rc := calcStateRoot tr cp
  (listFrame (listFrame (headerPayload cp rc.1) ++ [0xc0] ++ [0xc0]), rc.2)

/-- The bytes returned by `ChainParams::genesisBlock`. -/
def genesisBlock (tr : AccountMap → Nat) (cp : ChainParams) : Bytes :=
  (genesisBlockRun tr cp).1

/-! ## The reverse direction (`ChainParams::populateFromGenesis`, source
lines 155–181).  `BlockHeader(bytes, BlockData)` field extraction, then the
seal fields by raw-slice concatenation, then the fatal round-trip check. -/

/-- The field extraction `BlockHeader::populate` performs on the header
items, followed by the seal recovery of source lines 167–170.  Items 1, 3–6
and 8 are parsed (and can fail) but only their success matters here, exactly
as in the source, which stores them in `BlockHeader` members this class does
not read back. -/
def extractFields (hItems : List Bytes) (state : AccountMap) (cp : ChainParams) :
    Option ChainParams :=
  match hItems[0]?.bind (toH 32), hItems[1]?.bind (toH 32), hItems[2]?.bind (toH 20),
        hItems[3]?.bind (toH 32), hItems[4]?.bind (toH 32), hItems[5]?.bind (toH 32),
        hItems[6]?.bind (toH 256), hItems[7]?.bind (toNatLe 32), hItems[8]?.bind (toNatLe 32),
        hItems[9]?.bind (toNatLe 32), hItems[10]?.bind (toNatLe 32),
        hItems[11]?.bind (toNatLe 32), hItems[12]?.bind toBytesItem with
  | some ph, some _, some au, some _, some _, some _, some _, some df, some _,
    some gl, some gu, some ts, some ed =>
    some { cp with
      parentHash := ph, author := au, difficulty := df, gasLimit := gl, gasUsed := gu,
      timestamp := ts, extraData := ed, genesisState := state,
      sealFields := hItems.length - BasicFields,
      sealRLP := (hItems.drop BasicFields).flatten }
  | _, _, _, _, _, _, _, _, _, _, _, _, _ => none

/-- Decoding and extraction part of `populateFromGenesis` (before the
round-trip check): parse the input as a single RLP list whose first item is
itself a list (a block; a bare header makes the later `r[0].itemCount()`
call fail), then extract the header fields and the seal slices. -/
def populateRaw (input : Bytes) (state : AccountMap) (cp : ChainParams) :
    Option ChainParams :=
  match itemLen input with
  | none => none
  | some n =>
    if n = input.length then
      match payloadOf input with
      | some (true, op) =>
        match splitItems op.length op with
        | none => none
        | some items =>
          match items[0]? with
          | none => none
          | some first =>
            match payloadOf first with
            | some (true, hp) =>
              match splitItems hp.length hp with
              | none => none
              | some hItems => extractFields hItems state cp
            | _ => none
      | _ => none
    else none

/-- `ChainParams::populateFromGenesis` (source lines 155–181): extract, then
re-assemble through `genesisBlock()` and compare with the input; a mismatch
is a fatal error (`throw 0`), modelled as `none`. -/
def populateFromGenesis (tr : AccountMap → Nat) (input : Bytes) (state : AccountMap)
    (cp : ChainParams) : Option ChainParams :=
  match populateRaw input state cp with
  | none => none
  | some cp' =>
    let br := genesisBlockRun tr cp'
    if br.1 = input then some br.2 else none

/-! ## Claim C1: canonical structure of the assembled genesis block. -/

/-- The thirteen `BlockHeader::BasicFields` of the genesis header, as RLP
items, in the order `genesisBlock()` appends them. -/
def genesisHeaderItems (cp : ChainParams) (root : Nat) : List Rlp :=
  [.str (toBE 32 cp.parentHash), .str (toBE 32 emptyListSHA3), .str (toBE 20 cp.author),
   .str (toBE 32 root), .str (toBE 32 emptyTrieHash), .str (toBE 32 emptyTrieHash),
   .str (List.replicate 256 0), .str (beBytes cp.difficulty), .str (beBytes 0),
   .str (beBytes cp.gasLimit), .str (beBytes cp.gasUsed), .str (beBytes cp.timestamp),
   .str cp.extraData]

theorem listFrame_nil : listFrame [] = [0xc0] := rfl

/-- Claim C1.  For every `ChainParams` whose `sealRLP` is the concatenation
of the encodings of `sealFields` RLP items, `genesisBlock()` produces the
canonical encoding of a 3-item outer list: a header list holding exactly
`BasicFields + sealFields` items — `parentHash`, the empty-list-hash
constant, `author`, `stateRoot`, the empty-trie constant twice, a zero log
bloom, `difficulty`, the number `0`, `gasLimit`, `gasUsed`, `timestamp`,
`extraData`, then the `sealFields` raw seal items — followed by two
empty-list markers. -/
theorem genesisBlock_canonical (tr : AccountMap → Nat) (cp : ChainParams)
    (sealItems : List Rlp)
    (hseal : cp.sealRLP = Rlp.encodeList sealItems)
    (hcount : sealItems.length = cp.sealFields) :
    genesisBlock tr cp =
      Rlp.encode (.list [
        .list (genesisHeaderItems cp (calcStateRoot tr cp).1 ++ sealItems),
        .list [], .list []]) ∧
    (genesisHeaderItems cp (calcStateRoot tr cp).1 ++ sealItems).length =
      BasicFields + cp.sealFields := by
  constructor
  · simp only [genesisBlock, genesisBlockRun, headerPayload, rlpNat, hseal,
      Rlp.encode, Rlp.encodeList, Rlp.encodeList_append, genesisHeaderItems,
      listFrame_nil, List.append_assoc, List.append_nil, List.nil_append,
      List.append_eq]
  · have hb : (genesisHeaderItems cp (calcStateRoot tr cp).1).length = BasicFields := rfl
    rw [List.length_append, hb, hcount]

/-- Witness for C1 at a concrete `ChainParams` with two seal items. -/
def wSealItems : List Rlp := [.str (toBE 32 5), .str (toBE 8 9)]

def wSealCP : ChainParams :=
  { sealEngineName := "Ethash", accountStartNonce := 0, maximumExtraDataSize := 32,
    tieBreakingGas := true, blockReward := 0, otherParams := [], precompiled := [],
    genesisState := [], stateRoot := 4, parentHash := 1, author := 2, difficulty := 3,
    gasLimit := 7, gasUsed := 0, timestamp := 6, extraData := [0xab],
    sealFields := 2, sealRLP := rlpBytes (toBE 32 5) ++ rlpBytes (toBE 8 9) }

theorem genesisBlock_canonical_witness :
    genesisBlock (fun _ => 0) wSealCP =
      Rlp.encode (.list [
        .list (genesisHeaderItems wSealCP (calcStateRoot (fun _ => 0) wSealCP).1 ++ wSealItems),
        .list [], .list []]) ∧
    (genesisHeaderItems wSealCP (calcStateRoot (fun _ => 0) wSealCP).1 ++ wSealItems).length =
      BasicFields + wSealCP.sealFields :=
  genesisBlock_canonical (fun _ => 0) wSealCP wSealItems
    (by simp [wSealCP, wSealItems, Rlp.encodeList, Rlp.encode]) rfl

/-! ## Claim C5: memoized state-root computation. -/

/-- Claim C5.  `calculateStateRoot` is an idempotent memoization: with a
non-zero `stateRoot` it returns the cached value and leaves the object
unchanged (also when reached through `genesisBlock()`); with a zero
`stateRoot` it commits `genesisState` to the trie and stores the root. -/
theorem calculateStateRoot_memoized (tr : AccountMap → Nat) (cp : ChainParams) :
    (cp.stateRoot ≠ 0 → calcStateRoot tr cp = (cp.stateRoot, cp)) ∧
    (cp.stateRoot = 0 →
      calcStateRoot tr cp =
        (tr cp.genesisState, { cp with stateRoot := tr cp.genesisState })) ∧
    (cp.stateRoot ≠ 0 → genesisBlockRun tr cp = (genesisBlock tr cp, cp)) := by
  refine ⟨fun h => ?_, fun h => ?_, fun h => ?_⟩ <;>
    simp [calcStateRoot, genesisBlockRun, genesisBlock, h]

theorem calculateStateRoot_memoized_witness :
    calcStateRoot (fun _ => 0) wSealCP = (4, wSealCP) :=
  (calculateStateRoot_memoized (fun _ => 0) wSealCP).1 (by decide)

/-! ## Claim C10: determinism of `genesisBlock`. -/

/-- Claim C10.  `genesisBlock` depends only on the value's fields: account
maps listing the same entries in a different order (the same
`unordered_map`) give identical bytes — the trie commitment being
order-independent is the external trie's contract, taken as the hypothesis
`htr` — and a second call on the object state left by a first call returns
the same bytes. -/
theorem calcStateRoot_fst (tr : AccountMap → Nat) (cp : ChainParams) :
    (calcStateRoot tr cp).1 =
      if cp.stateRoot = 0 then tr cp.genesisState else cp.stateRoot := by
  unfold calcStateRoot
  split <;> rfl

theorem genesisBlock_eq_frame (tr : AccountMap → Nat) (cp : ChainParams) :
    genesisBlock tr cp =
      listFrame (listFrame (headerPayload cp (calcStateRoot tr cp).1) ++ [0xc0] ++ [0xc0]) := by
  simp only [genesisBlock, genesisBlockRun]

/-- The header payload reads only the listed header fields. -/
theorem headerPayload_congr (a b : ChainParams) (root : Nat)
    (h1 : a.parentHash = b.parentHash) (h2 : a.author = b.author)
    (h3 : a.difficulty = b.difficulty) (h4 : a.gasLimit = b.gasLimit)
    (h5 : a.gasUsed = b.gasUsed) (h6 : a.timestamp = b.timestamp)
    (h7 : a.extraData = b.extraData) (h8 : a.sealRLP = b.sealRLP) :
    headerPayload a root = headerPayload b root := by
  unfold headerPayload
  rw [h1, h2, h3, h4, h5, h6, h7, h8]

theorem genesisBlock_deterministic (tr : AccountMap → Nat) (cp : ChainParams)
    (gs' : AccountMap) (hperm : cp.genesisState.Perm gs')
    (htr : ∀ a b : AccountMap, a.Perm b → tr a = tr b) :
    genesisBlock tr { cp with genesisState := gs' } = genesisBlock tr cp ∧
    genesisBlock tr (genesisBlockRun tr cp).2 = genesisBlock tr cp := by
  constructor
  · rw [genesisBlock_eq_frame, genesisBlock_eq_frame,
      headerPayload_congr { cp with genesisState := gs' } cp _ rfl rfl rfl rfl rfl rfl rfl rfl]
    have hroot : (calcStateRoot tr { cp with genesisState := gs' }).1 =
        (calcStateRoot tr cp).1 := by
      rw [calcStateRoot_fst, calcStateRoot_fst]
      have hgs : ({ cp with genesisState := gs' } : ChainParams).genesisState = gs' := rfl
      have hsr : ({ cp with genesisState := gs' } : ChainParams).stateRoot = cp.stateRoot := rfl
      rw [hgs, hsr, htr _ _ hperm.symm]
    rw [hroot]
  · by_cases h : cp.stateRoot = 0
    · have h2 : (genesisBlockRun tr cp).2 = { cp with stateRoot := tr cp.genesisState } := by
        unfold genesisBlockRun calcStateRoot
        simp [h]
      rw [h2, genesisBlock_eq_frame, genesisBlock_eq_frame,
        headerPayload_congr { cp with stateRoot := tr cp.genesisState } cp _
          rfl rfl rfl rfl rfl rfl rfl rfl]
      have hroot : (calcStateRoot tr { cp with stateRoot := tr cp.genesisState }).1 =
          (calcStateRoot tr cp).1 := by
        rw [calcStateRoot_fst, calcStateRoot_fst]
        have e1 : ({ cp with stateRoot := tr cp.genesisState } : ChainParams).stateRoot =
            tr cp.genesisState := rfl
        have e2 : ({ cp with stateRoot := tr cp.genesisState } : ChainParams).genesisState =
            cp.genesisState := rfl
        rw [e1, e2, h, if_pos rfl]
        by_cases h3 : tr cp.genesisState = 0
        · rw [if_pos h3, h3]
        · rw [if_neg h3]
      rw [hroot]
    · have h2 : (genesisBlockRun tr cp).2 = cp := by
        unfold genesisBlockRun calcStateRoot
        simp [h]
      rw [h2]

def wAcct : Account := { nonce := 1, balance := 2, code := [] }

def wPermCP : ChainParams := { wSealCP with genesisState := [(1, wAcct), (2, wAcct)] }

theorem genesisBlock_deterministic_witness :
    genesisBlock (fun _ => 5) { wPermCP with genesisState := [(2, wAcct), (1, wAcct)] } =
      genesisBlock (fun _ => 5) wPermCP ∧
    genesisBlock (fun _ => 5) (genesisBlockRun (fun _ => 5) wPermCP).2 =
      genesisBlock (fun _ => 5) wPermCP :=
  genesisBlock_deterministic (fun _ => 5) wPermCP [(2, wAcct), (1, wAcct)]
    (by decide) (fun _ _ _ => rfl)

/-! ## Claim C7: no extra-data bound is enforced at assembly time.
`genesisBlock()` (source lines 198–222) contains no check of
`extraData.length` against `maximumExtraDataSize`: the assembled block
embeds the full `extraData` whatever the bound says. -/

/-- Claim C7 (amended): `genesisBlock` performs no `maximumExtraDataSize`
validation — its output is the same for every value of the bound, so an
oversized `extraData` is emitted in full rather than rejected or
truncated. -/
theorem genesisBlock_ignores_maximumExtraDataSize (tr : AccountMap → Nat)
    (cp : ChainParams) (m : Nat) :
    genesisBlock tr { cp with maximumExtraDataSize := m } = genesisBlock tr cp := by
  rw [genesisBlock_eq_frame, genesisBlock_eq_frame,
    headerPayload_congr { cp with maximumExtraDataSize := m } cp _
      rfl rfl rfl rfl rfl rfl rfl rfl]
  have hroot : (calcStateRoot tr { cp with maximumExtraDataSize := m }).1 =
      (calcStateRoot tr cp).1 := by
    rw [calcStateRoot_fst, calcStateRoot_fst]
  rw [hroot]

/-- Header items of an assembled block, for reading fields back out of the
produced bytes. -/
def headerItemsOf (b : Bytes) : Option (List Bytes) :=
  match payloadOf b with
  | some (true, op) =>
    match splitItems op.length op with
    | some items =>
      match items[0]? with
      | some first =>
        match payloadOf first with
        | some (true, hp) => splitItems hp.length hp
        | _ => none
      | none => none
    | none => none
  | _ => none

def cex7CP : ChainParams :=
  { wSealCP with maximumExtraDataSize := 0, extraData := [0xab, 0xcd] }

set_option maxRecDepth 10000 in
/-- Counterexample to claim C7 as stated: a `ChainParams` whose `extraData`
(2 bytes) exceeds `maximumExtraDataSize` (0) is not rejected at assembly
time — `genesisBlock` succeeds, returns the same bytes as with a large
bound, and the emitted header's extra-data item holds the oversized bytes
in full. -/
theorem genesisBlock_oversized_extraData_emitted :
    cex7CP.maximumExtraDataSize < cex7CP.extraData.length ∧
    genesisBlock (fun _ => 0) cex7CP =
      genesisBlock (fun _ => 0) { cex7CP with maximumExtraDataSize := 1000 } ∧
    ((headerItemsOf (genesisBlock (fun _ => 0) cex7CP)).bind (fun l => l[12]?)).bind
        toBytesItem = some [0xab, 0xcd] := by
  decide

/-! ## Claim C4: the round-trip mismatch is fatal. -/

theorem extractFields_stateRoot (hItems : List Bytes) (state : AccountMap)
    (cp cp' : ChainParams) (h : extractFields hItems state cp = some cp') :
    cp'.stateRoot = cp.stateRoot := by
  unfold extractFields at h
  split at h
  · cases h
    rfl
  · cases h

/-- The extraction phase never touches `stateRoot`: the decoded state root
(header item 3) is checked for shape but not stored. -/
theorem populateRaw_stateRoot (input : Bytes) (state : AccountMap) (cp cp' : ChainParams)
    (h : populateRaw input state cp = some cp') : cp'.stateRoot = cp.stateRoot := by
  unfold populateRaw at h
  repeat' split at h
  all_goals first
    | cases h
    | exact extractFields_stateRoot _ _ _ _ h

/-- Claim C4.  When the decoded fields (with `genesisState` set to the
supplied account map) do not re-assemble to the input bytes — for instance
because the supplied account map's trie root differs from the encoded state
root — `populateFromGenesis` raises a fatal error (`throw 0`, modelled
`none`) instead of accepting the divergent genesis; in particular the
decoded state root is never substituted into the value. -/
theorem populateFromGenesis_mismatch_fatal (tr : AccountMap → Nat) (input : Bytes)
    (state : AccountMap) (cp0 cp' : ChainParams)
    (hraw : populateRaw input state cp0 = some cp')
    (hne : genesisBlock tr cp' ≠ input) :
    populateFromGenesis tr input state cp0 = none ∧ cp'.stateRoot = cp0.stateRoot := by
  constructor
  · have hne' : (genesisBlockRun tr cp').1 ≠ input := hne
    simp only [populateFromGenesis, hraw]
    rw [if_neg hne']
  · exact populateRaw_stateRoot _ _ _ _ hraw

def zeroCP : ChainParams :=
  { sealEngineName := "", accountStartNonce := 0, maximumExtraDataSize := 0,
    tieBreakingGas := true, blockReward := 0, otherParams := [], precompiled := [],
    genesisState := [], stateRoot := 0, parentHash := 0, author := 0, difficulty := 0,
    gasLimit := 0, gasUsed := 0, timestamp := 0, extraData := [], sealFields := 0,
    sealRLP := [] }

/-- A trie commitment whose root depends on the account map, to witness a
state/root mismatch. -/
def wTr4 : AccountMap → Nat := fun m => if m = [] then 4 else 9

def wInput4 : Bytes := genesisBlock wTr4 wSealCP

/-- The value `populateRaw` extracts from `wInput4` with the mismatching
account map. -/
def wPopCP : ChainParams :=
  { zeroCP with
    parentHash := 1, author := 2, difficulty := 3, gasLimit := 7, gasUsed := 0,
    timestamp := 6, extraData := [0xab], genesisState := [(1, wAcct)],
    sealFields := 2, sealRLP := rlpBytes (toBE 32 5) ++ rlpBytes (toBE 8 9) }

set_option maxRecDepth 10000 in
theorem populateFromGenesis_mismatch_fatal_witness :
    populateFromGenesis wTr4 wInput4 [(1, wAcct)] zeroCP = none ∧
    wPopCP.stateRoot = zeroCP.stateRoot :=
  populateFromGenesis_mismatch_fatal wTr4 wInput4 [(1, wAcct)] zeroCP wPopCP
    (by decide) (by decide)

/-! ## Claim C2: the genesis round-trip. -/

theorem listFrame_length_le (p : Bytes) (h : p.length < 2 ^ 64) :
    (listFrame p).length ≤ p.length + 9 := by
  unfold listFrame
  split
  · simp
  · have hll : (beBytes p.length).length ≤ 8 :=
      beBytes_length_le _ 8 (by norm_num at h ⊢; omega)
    simp only [List.length_cons, List.length_append]
    omega

theorem isEnc_c0 : IsEnc [0xc0] := by
  refine ⟨by simp, fun t => ?_⟩
  show itemLen (0xc0 :: t) = some 1
  unfold itemLen
  norm_num

theorem beLen_replicate_zero (k : Nat) : beLen (List.replicate k 0) = 0 := by
  show List.foldl (fun a c => a * 256 + c) 0 (List.replicate k 0) = 0
  induction k with
  | zero => rfl
  | succ n ih => simpa [List.replicate_succ] using ih

theorem toH_bloom : toH 256 (rlpBytes (List.replicate 256 0)) = some 0 := by
  have hp := payloadOf_rlpBytes (List.replicate 256 0) (by rw [List.length_replicate]; norm_num)
  unfold toH
  rw [hp]
  show (if (List.replicate 256 0).length = 256 then some (beLen (List.replicate 256 0))
    else none) = some 0
  rw [List.length_replicate, if_pos rfl, beLen_replicate_zero]

theorem extractFields_eq (hItems : List Bytes) (state : AccountMap) (cp : ChainParams)
    (ph u2 au sr tro rro lb df no gl gu ts : Nat) (ed : Bytes)
    (e0 : hItems[0]?.bind (toH 32) = some ph) (e1 : hItems[1]?.bind (toH 32) = some u2)
    (e2 : hItems[2]?.bind (toH 20) = some au) (e3 : hItems[3]?.bind (toH 32) = some sr)
    (e4 : hItems[4]?.bind (toH 32) = some tro) (e5 : hItems[5]?.bind (toH 32) = some rro)
    (e6 : hItems[6]?.bind (toH 256) = some lb) (e7 : hItems[7]?.bind (toNatLe 32) = some df)
    (e8 : hItems[8]?.bind (toNatLe 32) = some no) (e9 : hItems[9]?.bind (toNatLe 32) = some gl)
    (e10 : hItems[10]?.bind (toNatLe 32) = some gu)
    (e11 : hItems[11]?.bind (toNatLe 32) = some ts)
    (e12 : hItems[12]?.bind toBytesItem = some ed) :
    extractFields hItems state cp =
      some { cp with
        parentHash := ph, author := au, difficulty := df, gasLimit := gl,
        gasUsed := gu, timestamp := ts, extraData := ed, genesisState := state,
        sealFields := hItems.length - BasicFields,
        sealRLP := (hItems.drop BasicFields).flatten } := by
  unfold extractFields
  rw [e0, e1, e2, e3, e4, e5, e6, e7, e8, e9, e10, e11, e12]


set_option maxHeartbeats 1000000 in
set_option maxRecDepth 8000 in
/-- Claim C2.  For every `ChainParams` whose `stateRoot` is computed
(non-zero and equal to the trie commitment of its `genesisState`), feeding
`genesisBlock()`'s output and the same `genesisState` to
`populateFromGenesis` on a fresh value succeeds and yields a value whose
`genesisBlock()` output is byte-for-byte the original; in particular it
recovers `parentHash`, `author`, `difficulty`, `gasLimit`, `gasUsed`,
`timestamp` and `extraData`, sets `sealFields` to the header item count
minus `BlockHeader::BasicFields`, and `sealRLP` to the concatenation of the
raw trailing items. -/
theorem populateFromGenesis_roundtrip (tr : AccountMap → Nat) (cp cp0 : ChainParams)
    (sealEncs : List Bytes)
    (hnz : cp.stateRoot ≠ 0)
    (hsr : tr cp.genesisState = cp.stateRoot)
    (h0 : cp0.stateRoot = 0)
    (hph : cp.parentHash < 2 ^ 256) (hau : cp.author < 2 ^ 160)
    (hdf : cp.difficulty < 2 ^ 256) (hgl : cp.gasLimit < 2 ^ 256)
    (hgu : cp.gasUsed < 2 ^ 256) (hts : cp.timestamp < 2 ^ 256)
    (hed : cp.extraData.length < 2 ^ 64)
    (hseal : cp.sealRLP = sealEncs.flatten)
    (henc : ∀ e ∈ sealEncs, IsEnc e)
    (hsf : sealEncs.length = cp.sealFields)
    (hbig : (headerPayload cp cp.stateRoot).length + 16 < 2 ^ 64) :
    ∃ q, populateFromGenesis tr (genesisBlock tr cp) cp.genesisState cp0 = some q ∧
      genesisBlock tr q = genesisBlock tr cp ∧
      q.parentHash = cp.parentHash ∧ q.author = cp.author ∧ q.difficulty = cp.difficulty ∧
      q.gasLimit = cp.gasLimit ∧ q.gasUsed = cp.gasUsed ∧ q.timestamp = cp.timestamp ∧
      q.extraData = cp.extraData ∧ q.genesisState = cp.genesisState ∧
      q.sealFields = cp.sealFields ∧ q.sealRLP = cp.sealRLP := by
  have h256_32 : (2 : Nat) ^ 256 = 256 ^ 32 := by norm_num
  have h160_20 : (2 : Nat) ^ 160 = 256 ^ 20 := by norm_num
  have hplen : (headerPayload cp cp.stateRoot).length < 2 ^ 64 := by omega
  have hben : ∀ n : Nat, n < 2 ^ 256 → (beBytes n).length < 2 ^ 64 := by
    intro n hn
    have := beBytes_length_le n 32 (by rw [← h256_32]; exact hn)
    omega
  set chain : List Bytes :=
    rlpBytes (toBE 32 cp.parentHash) :: rlpBytes (toBE 32 emptyListSHA3) ::
    rlpBytes (toBE 20 cp.author) :: rlpBytes (toBE 32 cp.stateRoot) ::
    rlpBytes (toBE 32 emptyTrieHash) :: rlpBytes (toBE 32 emptyTrieHash) ::
    rlpBytes (List.replicate 256 0) :: rlpNat cp.difficulty :: rlpNat 0 ::
    rlpNat cp.gasLimit :: rlpNat cp.gasUsed :: rlpNat cp.timestamp ::
    rlpBytes cp.extraData :: sealEncs with hchain
  have hitems : headerPayload cp cp.stateRoot = chain.flatten := by
    rw [hchain]
    simp only [headerPayload, hseal, List.flatten_cons, List.append_assoc]
  have henc32 : ∀ n : Nat, IsEnc (rlpBytes (toBE 32 n)) := fun n =>
    isEnc_rlpBytes _ (by rw [toBE_length]; norm_num)
  have hencAll : ∀ e ∈ chain, IsEnc e := by
    rw [hchain]
    simp only [List.forall_mem_cons]
    exact ⟨henc32 _, henc32 _,
      isEnc_rlpBytes _ (by rw [toBE_length]; norm_num), henc32 _, henc32 _, henc32 _,
      isEnc_rlpBytes _ (by rw [List.length_replicate]; norm_num),
      isEnc_rlpBytes _ (hben _ hdf), isEnc_rlpBytes _ (hben _ (by norm_num)),
      isEnc_rlpBytes _ (hben _ hgl), isEnc_rlpBytes _ (hben _ hgu),
      isEnc_rlpBytes _ (hben _ hts), isEnc_rlpBytes _ hed, henc⟩
  have hcalc1 : (calcStateRoot tr cp).1 = cp.stateRoot := by
    rw [calcStateRoot_fst, if_neg hnz]
  have hgb : genesisBlock tr cp =
      listFrame (listFrame (headerPayload cp cp.stateRoot) ++ [0xc0] ++ [0xc0]) := by
    rw [genesisBlock_eq_frame, hcalc1]
  have hinlen := listFrame_length_le _ hplen
  have houtlen : (listFrame (headerPayload cp cp.stateRoot) ++ [0xc0] ++ [0xc0]).length
      < 2 ^ 64 := by
    simp only [List.length_append, List.length_cons, List.length_nil]
    omega
  have hinput_item : itemLen (genesisBlock tr cp) = some (genesisBlock tr cp).length := by
    rw [hgb]
    have := (isEnc_listFrame _ houtlen).2 []
    simpa using this
  have hinput_payload : payloadOf (genesisBlock tr cp) =
      some (true, listFrame (headerPayload cp cp.stateRoot) ++ [0xc0] ++ [0xc0]) := by
    rw [hgb]
    exact payloadOf_listFrame _ houtlen
  have houter_flat : listFrame (headerPayload cp cp.stateRoot) ++ [0xc0] ++ [0xc0] =
      ([listFrame (headerPayload cp cp.stateRoot), [0xc0], [0xc0]] : List Bytes).flatten := by
    simp
  have hsplit_outer : splitItems
      (listFrame (headerPayload cp cp.stateRoot) ++ [0xc0] ++ [0xc0]).length
      (listFrame (headerPayload cp cp.stateRoot) ++ [0xc0] ++ [0xc0]) =
      some [listFrame (headerPayload cp cp.stateRoot), [0xc0], [0xc0]] := by
    rw [houter_flat]
    refine splitItems_flatten_self _ ?_
    simp only [List.forall_mem_cons]
    exact ⟨isEnc_listFrame _ hplen, isEnc_c0, isEnc_c0, by simp⟩
  have hinner_payload : payloadOf (listFrame (headerPayload cp cp.stateRoot)) =
      some (true, headerPayload cp cp.stateRoot) := payloadOf_listFrame _ hplen
  have hsplit_inner : splitItems (headerPayload cp cp.stateRoot).length
      (headerPayload cp cp.stateRoot) = some chain := by
    rw [hitems]
    exact splitItems_flatten_self _ hencAll
  have htoH32w : ∀ n : Nat, toH 32 (rlpBytes (toBE 32 n)) = some (beLen (toBE 32 n)) := by
    intro n
    have hp := payloadOf_rlpBytes (toBE 32 n) (by rw [toBE_length]; norm_num)
    unfold toH
    rw [hp]
    show (if (toBE 32 n).length = 32 then some (beLen (toBE 32 n)) else none) = _
    rw [toBE_length, if_pos rfl]
  have htoH32 : toH 32 (rlpBytes (toBE 32 cp.parentHash)) = some cp.parentHash :=
    toH_toBE 32 _ (by norm_num) (by rw [← h256_32]; exact hph)
  have htoH20 : toH 20 (rlpBytes (toBE 20 cp.author)) = some cp.author :=
    toH_toBE 20 _ (by norm_num) (by rw [← h160_20]; exact hau)
  have htoNat : ∀ n : Nat, n < 2 ^ 256 → toNatLe 32 (rlpNat n) = some n := by
    intro n hn
    exact toNatLe_rlpNat 32 n (by rw [← h256_32]; exact hn) (by norm_num)
  have gcons : ∀ (x : Bytes) (l : List Bytes) (n : Nat),
      (x :: l)[n + 1]? = l[n]? := fun x l n => List.getElem?_cons_succ
  have g0 : chain[0]?.bind (toH 32) = some cp.parentHash := by
    rw [hchain]
    simp only [List.getElem?_cons_zero, Option.some_bind]
    exact htoH32
  have g1 : chain[1]?.bind (toH 32) = some (beLen (toBE 32 emptyListSHA3)) := by
    rw [hchain]
    simp only [gcons, List.getElem?_cons_zero, Option.some_bind]
    exact htoH32w _
  have g2 : chain[2]?.bind (toH 20) = some cp.author := by
    rw [hchain]
    simp only [gcons, List.getElem?_cons_zero, Option.some_bind]
    exact htoH20
  have g3 : chain[3]?.bind (toH 32) = some (beLen (toBE 32 cp.stateRoot)) := by
    rw [hchain]
    simp only [gcons, List.getElem?_cons_zero, Option.some_bind]
    exact htoH32w _
  have g4 : chain[4]?.bind (toH 32) = some (beLen (toBE 32 emptyTrieHash)) := by
    rw [hchain]
    simp only [gcons, List.getElem?_cons_zero, Option.some_bind]
    exact htoH32w _
  have g5 : chain[5]?.bind (toH 32) = some (beLen (toBE 32 emptyTrieHash)) := by
    rw [hchain]
    simp only [gcons, List.getElem?_cons_zero, Option.some_bind]
    exact htoH32w _
  have g6 : chain[6]?.bind (toH 256) = some 0 := by
    rw [hchain]
    simp only [gcons, List.getElem?_cons_zero, Option.some_bind]
    exact toH_bloom
  have g7 : chain[7]?.bind (toNatLe 32) = some cp.difficulty := by
    rw [hchain]
    simp only [gcons, List.getElem?_cons_zero, Option.some_bind]
    exact htoNat _ hdf
  have g8 : chain[8]?.bind (toNatLe 32) = some 0 := by
    rw [hchain]
    simp only [gcons, List.getElem?_cons_zero, Option.some_bind]
    exact htoNat _ (by norm_num)
  have g9 : chain[9]?.bind (toNatLe 32) = some cp.gasLimit := by
    rw [hchain]
    simp only [gcons, List.getElem?_cons_zero, Option.some_bind]
    exact htoNat _ hgl
  have g10 : chain[10]?.bind (toNatLe 32) = some cp.gasUsed := by
    rw [hchain]
    simp only [gcons, List.getElem?_cons_zero, Option.some_bind]
    exact htoNat _ hgu
  have g11 : chain[11]?.bind (toNatLe 32) = some cp.timestamp := by
    rw [hchain]
    simp only [gcons, List.getElem?_cons_zero, Option.some_bind]
    exact htoNat _ hts
  have g12 : chain[12]?.bind toBytesItem = some cp.extraData := by
    rw [hchain]
    simp only [gcons, List.getElem?_cons_zero, Option.some_bind]
    exact toBytesItem_rlpBytes _ hed
  have hext := extractFields_eq chain cp.genesisState cp0
    cp.parentHash (beLen (toBE 32 emptyListSHA3)) cp.author (beLen (toBE 32 cp.stateRoot))
    (beLen (toBE 32 emptyTrieHash)) (beLen (toBE 32 emptyTrieHash)) 0
    cp.difficulty 0 cp.gasLimit cp.gasUsed cp.timestamp cp.extraData
    g0 g1 g2 g3 g4 g5 g6 g7 g8 g9 g10 g11 g12
  have hchain_len : chain.length - BasicFields = sealEncs.length := by
    rw [hchain]
    simp [BasicFields]
  have hchain_drop : (chain.drop BasicFields).flatten = cp.sealRLP := by
    rw [hchain, hseal]
    rfl
  have hraw : populateRaw (genesisBlock tr cp) cp.genesisState cp0 =
      some { cp0 with
        parentHash := cp.parentHash, author := cp.author, difficulty := cp.difficulty,
        gasLimit := cp.gasLimit, gasUsed := cp.gasUsed, timestamp := cp.timestamp,
        extraData := cp.extraData, genesisState := cp.genesisState,
        sealFields := chain.length - BasicFields,
        sealRLP := (chain.drop BasicFields).flatten } := by
    simp only [populateRaw, hinput_item, eq_self_iff_true, if_true, hinput_payload,
      hsplit_outer, List.getElem?_cons_zero, hinner_payload, hsplit_inner, hext]
  set q0 : ChainParams := { cp0 with
    parentHash := cp.parentHash, author := cp.author, difficulty := cp.difficulty,
    gasLimit := cp.gasLimit, gasUsed := cp.gasUsed, timestamp := cp.timestamp,
    extraData := cp.extraData, genesisState := cp.genesisState,
    sealFields := chain.length - BasicFields,
    sealRLP := (chain.drop BasicFields).flatten } with hq0
  have hq0sr : q0.stateRoot = 0 := h0
  have hq0srlp : q0.sealRLP = cp.sealRLP := hchain_drop
  have hq0sf : q0.sealFields = cp.sealFields := by
    show chain.length - BasicFields = cp.sealFields
    rw [hchain_len, hsf]
  have hq0root : (calcStateRoot tr q0).1 = cp.stateRoot := by
    rw [calcStateRoot_fst, if_pos hq0sr]
    show tr cp.genesisState = cp.stateRoot
    exact hsr
  have hq0gb : genesisBlock tr q0 = genesisBlock tr cp := by
    rw [genesisBlock_eq_frame, hq0root, hgb,
      headerPayload_congr q0 cp cp.stateRoot rfl rfl rfl rfl rfl rfl rfl hq0srlp]
  have hq2 : (calcStateRoot tr q0).2 = { q0 with stateRoot := tr cp.genesisState } := by
    unfold calcStateRoot
    rw [if_pos hq0sr]
  have hfull : populateFromGenesis tr (genesisBlock tr cp) cp.genesisState cp0 =
      some (calcStateRoot tr q0).2 := by
    have hbr : (genesisBlockRun tr q0).1 = genesisBlock tr cp := hq0gb
    simp only [populateFromGenesis, hraw, ← hq0]
    rw [if_pos hbr]
    rfl
  refine ⟨(calcStateRoot tr q0).2, hfull, ?_, ?_, ?_, ?_, ?_, ?_, ?_, ?_, ?_, ?_, ?_⟩
  · rw [hq2, genesisBlock_eq_frame, hgb]
    have hqroot : (calcStateRoot tr { q0 with stateRoot := tr cp.genesisState }).1 =
        cp.stateRoot := by
      rw [calcStateRoot_fst]
      have e1 : ({ q0 with stateRoot := tr cp.genesisState } : ChainParams).stateRoot =
          tr cp.genesisState := rfl
      rw [e1, hsr, if_neg hnz]
    rw [hqroot,
      headerPayload_congr { q0 with stateRoot := tr cp.genesisState } cp cp.stateRoot
        rfl rfl rfl rfl rfl rfl rfl hq0srlp]
  · rw [hq2]
  · rw [hq2]
  · rw [hq2]
  · rw [hq2]
  · rw [hq2]
  · rw [hq2]
  · rw [hq2]
  · rw [hq2]
  · rw [hq2]
    exact hq0sf
  · rw [hq2]
    exact hq0srlp

def wTrC2 : AccountMap → Nat := fun _ => 4

set_option maxRecDepth 10000 in
theorem populateFromGenesis_roundtrip_witness :
    ∃ q, populateFromGenesis wTrC2 (genesisBlock wTrC2 wSealCP) wSealCP.genesisState zeroCP
        = some q ∧
      genesisBlock wTrC2 q = genesisBlock wTrC2 wSealCP ∧
      q.parentHash = wSealCP.parentHash ∧ q.author = wSealCP.author ∧
      q.difficulty = wSealCP.difficulty ∧ q.gasLimit = wSealCP.gasLimit ∧
      q.gasUsed = wSealCP.gasUsed ∧ q.timestamp = wSealCP.timestamp ∧
      q.extraData = wSealCP.extraData ∧ q.genesisState = wSealCP.genesisState ∧
      q.sealFields = wSealCP.sealFields ∧ q.sealRLP = wSealCP.sealRLP :=
  populateFromGenesis_roundtrip wTrC2 wSealCP zeroCP
    [rlpBytes (toBE 32 5), rlpBytes (toBE 8 9)]
    (by decide) rfl rfl (by decide) (by decide) (by decide) (by decide) (by decide)
    (by decide) (by decide) (by decide)
    (by
      simp only [List.forall_mem_cons]
      exact ⟨isEnc_rlpBytes _ (by rw [toBE_length]; norm_num),
        isEnc_rlpBytes _ (by rw [toBE_length]; norm_num), by simp⟩)
    (by decide) (by decide)

/-! ## Configuration values.  json_spirit (the JSON text reader/writer) is
an external collaborator; configuration enters as parsed JSON values
(`js::mValue` / `js::mObject`), with object access as in the source
(`count`, `operator[]`, `get_str`, `get_bool`, `get_obj` — a wrong type or
a missing required key throws, modelled `none`). -/

inductive Js where
  | str : String → Js
  | bool : Bool → Js
  | obj : List (String × Js) → Js

def Js.getStr : Js → Option String
  | .str s => some s
  | _ => none

def Js.getBool : Js → Option Bool
  | .bool b => some b
  | _ => none

def Js.getObj : Js → Option (List (String × Js))
  | .obj o => some o
  | _ => none

def jsLookup (o : List (String × Js)) (k : String) : Option Js :=
  match o with
  | [] => none
  | (k', v) :: rest => if k' = k then some v else jsLookup rest k

/-- `mObject::count(k)` as a Bool. -/
def jsHas (o : List (String × Js)) (k : String) : Bool := (jsLookup o k).isSome

def getStrKey (o : List (String × Js)) (k : String) : Option String :=
  (jsLookup o k).bind Js.getStr

def hexDigit (c : Char) : Option Nat :=
  if '0' ≤ c ∧ c ≤ '9' then some (c.toNat - '0'.toNat)
  else if 'a' ≤ c ∧ c ≤ 'f' then some (c.toNat - 'a'.toNat + 10)
  else if 'A' ≤ c ∧ c ≤ 'F' then some (c.toNat - 'A'.toNat + 10)
  else none

def hexPairs : List Char → Option Bytes
  | [] => some []
  | [_] => none
  | c1 :: c2 :: rest =>
    match hexDigit c1, hexDigit c2, hexPairs rest with
    | some h, some l, some r => some ((h * 16 + l) :: r)
    | _, _, _ => none

/-- Modelled from the spec: hexadecimal parsing of configuration values
(libdevcore `fromHex`, not under src/) — strips an optional `0x` prefix, an
odd leading digit stands alone, malformed hex is a `ConfigError`. -/
def fromHex (s : String) : Option Bytes :=
  let cs := if s.data.take 2 = ['0', 'x'] then s.data.drop 2 else s.data
  if cs.length % 2 = 1 then
    match hexDigit (cs.headD '0'), hexPairs (cs.drop 1) with
    | some h, some r => some (h :: r)
    | _, _ => none
  else hexPairs cs

/-- `u256(fromBigEndian<u256>(fromHex(s)))`: big-endian value, reduced into
the 256-bit range. -/
def hexToU256 (s : String) : Option Nat :=
  (fromHex s).map fun b => beLen b % 2 ^ 256

/-- `FixedHash<k>` from a hex string (`h256(s)`, `h160(s)`, `h64(s)`):
exactly `k` bytes, else a `ConfigError` (modelled from the spec's
required-hash parsing). -/
def hexToH (k : Nat) (s : String) : Option Nat :=
  (fromHex s).bind fun b => if b.length = k then some (beLen b) else none

/-! ## `ChainParams::setGenesis` (source lines 65–91). -/

structure GHeader where
  parentHash : Nat
  author : Nat
  difficulty : Nat
  gasLimit : Nat
  gasUsed : Nat
  timestamp : Nat
  extraData : Bytes

/-- The genesis-header field extraction of `setGenesis` (source lines
73–79): `parentHash`, `author` (a `coinbase` key takes precedence),
`difficulty` (default 0), `gasLimit`, `gasUsed` (default 0), `timestamp`,
`extraData`. -/
def headerOf (g : List (String × Js)) : Option GHeader :=
  match (getStrKey g "parentHash").bind (hexToH 32),
        (if jsHas g "coinbase" then (getStrKey g "coinbase").bind (hexToH 20)
         else (getStrKey g "author").bind (hexToH 20)),
        (if jsHas g "difficulty" then (getStrKey g "difficulty").bind hexToU256 else some 0),
        (getStrKey g "gasLimit").bind hexToU256,
        (if jsHas g "gasUsed" then (getStrKey g "gasUsed").bind hexToU256 else some 0),
        (getStrKey g "timestamp").bind hexToU256,
        (getStrKey g "extraData").bind fromHex with
  | some ph, some au, some df, some gl, some gu, some ts, some ed =>
    some { parentHash := ph, author := au, difficulty := df, gasLimit := gl, gasUsed := gu,
           timestamp := ts, extraData := ed }
  | _, _, _, _, _, _, _ => none

/-- The ethash seal handling of `setGenesis` (source lines 82–88): with a
mix-hash key (`mixhash` checked before `mixHash`) and a `nonce` key, two
seal fields encoded `rlp(mixHash) + rlp(nonce)`; otherwise the seal data of
the copied original. -/
def sealOf (g : List (String × Js)) (org : ChainParams) : Option (Nat × Bytes) :=
  if (jsHas g "mixhash" || jsHas g "mixHash") && jsHas g "nonce" then
    match (getStrKey g (if jsHas g "mixhash" then "mixhash" else "mixHash")).bind (hexToH 32),
          (getStrKey g "nonce").bind (hexToH 8) with
    | some mh, some nn => some (2, rlpBytes (toBE 32 mh) ++ rlpBytes (toBE 8 nn))
    | _, _ => none
  else some (org.sealFields, org.sealRLP)

/-- `ChainParams::setGenesis` (source lines 65–91): copy the original,
overlay the genesis header fields and the seal, then set `stateRoot` from
the trusted argument if non-zero, else compute it. -/
def setGenesis (tr : AccountMap → Nat) (v : Js) (sra : Nat) (org : ChainParams) :
    Option ChainParams :=
  match v.getObj with
  | none => none
  | some g =>
    match headerOf g, sealOf g org with
    | some hh, some sf =>
      let cp := { ChainParams.copy org with
        parentHash := hh.parentHash, author := hh.author, difficulty := hh.difficulty,
        gasLimit := hh.gasLimit, gasUsed := hh.gasUsed, timestamp := hh.timestamp,
        extraData := hh.extraData, sealFields := sf.1, sealRLP := sf.2 }
      some { cp with stateRoot := if sra ≠ 0 then sra else (calcStateRoot tr cp).1 }
    | _, _ => none

/-! ## `ChainParams::setGenesisState` (source lines 93–99). -/

/-- Modelled from the spec: `jsonToAccountMap` (libethereum Account.cpp,
not under src/).  Parses an object mapping address strings to account
descriptors (balance, nonce, code, and a `precompiled` marker), wiring
marked-precompiled addresses to the supplied table; a marked address absent
from the table, or a malformed entry, is a `ConfigError`. -/
def jsonToAccountMap (v : Js) (pc : PrecompiledMap) : Option AccountMap :=
  match v.getObj with
  | none => none
  | some entries => jsonToAccountMapGo pc entries
where
  jsonToAccountMapGo (pc : PrecompiledMap) : List (String × Js) → Option AccountMap
  | [] => some []
  | (k, dv) :: rest =>
    match fromHex k, dv.getObj with
    | some ab, some d =>
      if ab.length = 20 then
        if jsHas d "precompiled" && !(pc.any (fun p => p.1 = beLen ab)) then none
        else
          match (if jsHas d "balance" then (getStrKey d "balance").bind hexToU256 else some 0),
                (if jsHas d "nonce" then (getStrKey d "nonce").bind hexToU256 else some 0),
                (if jsHas d "code" then (getStrKey d "code").bind fromHex else some []),
                jsonToAccountMapGo pc rest with
          | some bal, some non, some code, some r =>
            some ((beLen ab, { nonce := non, balance := bal, code := code }) :: r)
          | _, _, _, _ => none
      else none
    | _, _ => none

/-- `ChainParams::setGenesisState` (source lines 93–99): copy the original,
replace `precompiled` with the supplied table and `genesisState` with the
parsed account map. -/
def setGenesisState (v : Js) (pc : PrecompiledMap) (org : ChainParams) :
    Option ChainParams :=
  match jsonToAccountMap v pc with
  | none => none
  | some st => some { ChainParams.copy org with precompiled := pc, genesisState := st }

/-! ## `ChainParams::loadConfig` (source lines 102–131). -/

/-- The four `params` keys promoted to typed fields (source line 117). -/
def isNamedParam (k : String) : Bool :=
  k = "accountStartNonce" || k = "maximumExtraDataSize" || k = "blockReward" ||
  k = "tieBreakingGas"

/-- The `otherParams` insertion loop of `loadConfig` (source lines 116–118);
`get_str()` on a non-string value throws. -/
def otherOf : List (String × Js) → List (String × String) → Option (List (String × String))
  | [], acc => some acc
  | (k, v) :: rest, acc =>
    if isNamedParam k then otherOf rest acc
    else match v.getStr with
      | some s => otherOf rest (apInsert acc k s)
      | none => none

/-- `ChainParams::loadConfig` (source lines 102–131).  Note the source calls
`setGenesis` (line 124) and `setGenesisState` (line 129) as statements and
drops the returned values: only their failures propagate, and the returned
`ChainParams` keeps the base's genesis fields, `genesisState` and
`precompiled`. -/
def loadConfig (tr : AccountMap → Nat) (v : Js) (importGenesis : Bool) (sra : Nat)
    (base : ChainParams) : Option ChainParams :=
  match v.getObj with
  | none => none
  | some obj =>
    match (jsLookup obj "sealEngine").bind Js.getStr,
          (jsLookup obj "params").bind Js.getObj with
    | some sen, some params =>
      match (getStrKey params "accountStartNonce").bind hexToU256,
            (getStrKey params "maximumExtraDataSize").bind hexToU256,
            (if jsHas params "tieBreakingGas" then
              (jsLookup params "tieBreakingGas").bind Js.getBool
             else some true),
            (getStrKey params "blockReward").bind hexToU256 with
      | some asn, some meds, some tbg, some br =>
        match otherOf params (ChainParams.copy base).otherParams with
        | none => none
        | some ops =>
          let cp := { ChainParams.copy base with
            sealEngineName := sen, accountStartNonce := asn, maximumExtraDataSize := meds,
            tieBreakingGas := tbg, blockReward := br, otherParams := ops }
          match (if importGenesis then
                   match jsLookup obj "genesis" with
                   | none => none
                   | some gv => (setGenesis tr gv sra cp).map (fun _ => ())
                 else some ()) with
          | none => none
          | some _ =>
            match jsLookup obj "accounts" with
            | none => none
            | some av =>
              match setGenesisState av [] cp with
              | none => none
              | some _ => some cp
      | _, _, _, _ => none
    | _, _ => none

/-! ## Claim C9: `setGenesisState` is a pure frame-preserving update. -/

/-- Claim C9.  `setGenesisState` never mutates the base value (the embedding
is a pure function of it) and returns a value with `precompiled` replaced by
the supplied table and `genesisState` by the parsed account map, every other
field copied unchanged from the base. -/
theorem setGenesisState_frame (v : Js) (pc : PrecompiledMap) (org cp' : ChainParams)
    (st : AccountMap)
    (hj : jsonToAccountMap v pc = some st)
    (h : setGenesisState v pc org = some cp')
    (hnd : (org.otherParams.map Prod.fst).Nodup) :
    cp' = { org with precompiled := pc, genesisState := st } := by
  unfold setGenesisState at h
  simp only [hj] at h
  cases h
  rw [ChainParams.copy_eq org hnd]

def wAccounts9 : Js :=
  .obj [("0000000000000000000000000000000000000005", .obj [("balance", .str "0x64")])]

def wState9 : AccountMap := [(5, { nonce := 0, balance := 100, code := [] })]

theorem setGenesisState_frame_witness :
    ({ wSealCP with precompiled := [], genesisState := wState9 } : ChainParams) =
      { wSealCP with precompiled := [], genesisState := wState9 } :=
  setGenesisState_frame wAccounts9 [] wSealCP
    { wSealCP with precompiled := [], genesisState := wState9 } wState9
    (by decide) (by decide) (by decide)

/-! ## Claim C6: seal detection in `setGenesis`. -/

theorem sealOf_pos (g : List (String × Js)) (org : ChainParams) (sfp : Nat × Bytes)
    (hg : ((jsHas g "mixhash" || jsHas g "mixHash") && jsHas g "nonce") = true)
    (h : sealOf g org = some sfp) :
    ∃ mh nn,
      (getStrKey g (if jsHas g "mixhash" then "mixhash" else "mixHash")).bind (hexToH 32)
        = some mh ∧
      (getStrKey g "nonce").bind (hexToH 8) = some nn ∧
      sfp.1 = 2 ∧ sfp.2 = rlpBytes (toBE 32 mh) ++ rlpBytes (toBE 8 nn) := by
  unfold sealOf at h
  rw [if_pos hg] at h
  cases hmh : (getStrKey g (if jsHas g "mixhash" then "mixhash" else "mixHash")).bind
      (hexToH 32) with
  | none => simp [hmh] at h
  | some mh =>
    cases hnn : (getStrKey g "nonce").bind (hexToH 8) with
    | none => simp [hmh, hnn] at h
    | some nn =>
      simp only [hmh, hnn] at h
      cases h
      exact ⟨mh, nn, rfl, rfl, rfl, rfl⟩

theorem sealOf_neg (g : List (String × Js)) (org : ChainParams)
    (hg : ((jsHas g "mixhash" || jsHas g "mixHash") && jsHas g "nonce") = false) :
    sealOf g org = some (org.sealFields, org.sealRLP) := by
  unfold sealOf
  rw [if_neg (by simp [hg])]

/-- Claim C6.  In `setGenesis`: when the genesis object holds a mix-hash key
(`mixhash` checked before `mixHash`) and a `nonce` key, the result has
`sealFields = 2` and `sealRLP` equal to the canonical encoding of the mix
hash followed by the nonce; when either key is absent, `sealFields` and
`sealRLP` are left as in the base value. -/
theorem setGenesis_seal (tr : AccountMap → Nat) (g : List (String × Js)) (sra : Nat)
    (org cp' : ChainParams)
    (h : setGenesis tr (.obj g) sra org = some cp') :
    (((jsHas g "mixhash" || jsHas g "mixHash") && jsHas g "nonce") = true →
      ∃ mh nn,
        (getStrKey g (if jsHas g "mixhash" then "mixhash" else "mixHash")).bind (hexToH 32)
          = some mh ∧
        (getStrKey g "nonce").bind (hexToH 8) = some nn ∧
        cp'.sealFields = 2 ∧
        cp'.sealRLP = rlpBytes (toBE 32 mh) ++ rlpBytes (toBE 8 nn)) ∧
    (((jsHas g "mixhash" || jsHas g "mixHash") && jsHas g "nonce") = false →
      cp'.sealFields = org.sealFields ∧ cp'.sealRLP = org.sealRLP) := by
  have hobj : (Js.obj g).getObj = some g := rfl
  unfold setGenesis at h
  rw [hobj] at h
  cases hh : headerOf g with
  | none => simp [hh] at h
  | some hdr =>
    cases hs : sealOf g org with
    | none => simp [hh, hs] at h
    | some sfp =>
      simp only [hh, hs] at h
      cases h
      constructor
      · intro hg
        obtain ⟨mh, nn, h1, h2, h3, h4⟩ := sealOf_pos g org sfp hg hs
        exact ⟨mh, nn, h1, h2, h3, h4⟩
      · intro hg
        rw [sealOf_neg g org hg] at hs
        cases hs
        exact ⟨rfl, rfl⟩

def wGenesis6 : List (String × Js) :=
  [("parentHash",
    .str "0x0000000000000000000000000000000000000000000000000000000000000000"),
   ("author", .str "0x0000000000000000000000000000000000000000"),
   ("gasLimit", .str "0x2fefd8"), ("timestamp", .str "0x00"), ("extraData", .str "0x"),
   ("mixHash",
    .str "0x0000000000000000000000000000000000000000000000000000000000000007"),
   ("nonce", .str "0x0000000000000009")]

def wOut6 : ChainParams :=
  { zeroCP with
    gasLimit := 0x2fefd8, sealFields := 2,
    sealRLP := rlpBytes (toBE 32 7) ++ rlpBytes (toBE 8 9), stateRoot := 1 }

theorem setGenesis_seal_witness :
    (((jsHas wGenesis6 "mixhash" || jsHas wGenesis6 "mixHash") && jsHas wGenesis6 "nonce")
        = true →
      ∃ mh nn,
        (getStrKey wGenesis6
            (if jsHas wGenesis6 "mixhash" then "mixhash" else "mixHash")).bind (hexToH 32)
          = some mh ∧
        (getStrKey wGenesis6 "nonce").bind (hexToH 8) = some nn ∧
        wOut6.sealFields = 2 ∧
        wOut6.sealRLP = rlpBytes (toBE 32 mh) ++ rlpBytes (toBE 8 nn)) ∧
    (((jsHas wGenesis6 "mixhash" || jsHas wGenesis6 "mixHash") && jsHas wGenesis6 "nonce")
        = false →
      wOut6.sealFields = zeroCP.sealFields ∧ wOut6.sealRLP = zeroCP.sealRLP) :=
  setGenesis_seal (fun _ => 0) wGenesis6 1 zeroCP wOut6 (by decide)

/-! ## Claim C8: the `otherParams` bag after `loadConfig`. -/

theorem jsLookup_eq_none (o : List (String × Js)) (k : String)
    (h : k ∉ o.map Prod.fst) : jsLookup o k = none := by
  induction o with
  | nil => rfl
  | cons p rest ih =>
    obtain ⟨k0, v0⟩ := p
    show (if k0 = k then some v0 else jsLookup rest k) = none
    rw [if_neg (by rintro rfl; exact h (by simp)), ih (fun hm => h (by simp [hm]))]

theorem otherOf_lookup (ps : List (String × Js)) :
    ∀ acc m : List (String × String), (ps.map Prod.fst).Nodup →
    otherOf ps acc = some m → ∀ k,
    apLookup m k = Option.or
      (if isNamedParam k then none else (jsLookup ps k).bind Js.getStr)
      (apLookup acc k) := by
  induction ps with
  | nil =>
    intro acc m _ h k
    cases h
    have hnone : (if isNamedParam k then none
        else (jsLookup ([] : List (String × Js)) k).bind Js.getStr) = (none : Option String) := by
      split <;> rfl
    rw [hnone]
    cases apLookup acc k <;> rfl
  | cons p rest ih =>
    intro acc m hnd h k
    obtain ⟨k0, v0⟩ := p
    simp only [List.map_cons, List.nodup_cons] at hnd
    obtain ⟨hk0nm, hndr⟩ := hnd
    show _ = Option.or (if isNamedParam k then none
      else ((if k0 = k then some v0 else jsLookup rest k).bind Js.getStr)) (apLookup acc k)
    by_cases hnk : isNamedParam k0 = true
    · rw [show otherOf ((k0, v0) :: rest) acc = otherOf rest acc from by
        show (if isNamedParam k0 then otherOf rest acc else _) = _
        rw [if_pos hnk]] at h
      rw [ih acc m hndr h k]
      by_cases hk : k0 = k
      · subst hk
        rw [if_pos hnk, if_pos hnk]
      · congr 1
        by_cases hnmk : isNamedParam k = true
        · rw [if_pos hnmk, if_pos hnmk]
        · rw [if_neg hnmk, if_neg hnmk, if_neg hk]
    · have hstep : otherOf ((k0, v0) :: rest) acc =
          (match v0.getStr with
           | some s => otherOf rest (apInsert acc k0 s)
           | none => none) := by
        show (if isNamedParam k0 then _ else _) = _
        rw [if_neg hnk]
      rw [hstep] at h
      cases hvs : v0.getStr with
      | none => simp [hvs] at h
      | some s =>
        simp only [hvs] at h
        rw [ih (apInsert acc k0 s) m hndr h k]
        by_cases hk : k0 = k
        · subst hk
          rw [if_neg hnk, if_neg hnk, jsLookup_eq_none rest k0 hk0nm,
            apLookup_apInsert_self]
          have hb : (some v0).bind Js.getStr = some s := by
            rw [Option.some_bind]
            exact hvs
          rw [if_pos rfl, hb]
          rfl
        · rw [apLookup_apInsert_ne acc k k0 s hk]
          congr 1
          by_cases hnmk : isNamedParam k = true
          · rw [if_pos hnmk, if_pos hnmk]
          · rw [if_neg hnmk, if_neg hnmk, if_neg hk]

/-- Claim C8.  After parsing a configuration from a fresh base,
`otherParams` holds exactly the keys of the `params` object other than the
four promoted ones (`accountStartNonce`, `maximumExtraDataSize`,
`blockReward`, `tieBreakingGas`), each mapped verbatim to its string value;
none of the four ever appears; and `tieBreakingGas` defaults to `true` when
the key is absent. -/
theorem loadConfig_otherParams (tr : AccountMap → Nat) (obj params : List (String × Js))
    (ig : Bool) (sra : Nat) (base cp' : ChainParams)
    (hparams : jsLookup obj "params" = some (.obj params))
    (hnd : (params.map Prod.fst).Nodup)
    (hbase : base.otherParams = [])
    (h : loadConfig tr (.obj obj) ig sra base = some cp') :
    (∀ k, apLookup cp'.otherParams k =
      if isNamedParam k then none else (jsLookup params k).bind Js.getStr) ∧
    (jsLookup params "tieBreakingGas" = none → cp'.tieBreakingGas = true) := by
  have hobj : (Js.obj obj).getObj = some obj := rfl
  have hpb : (jsLookup obj "params").bind Js.getObj = some params := by
    rw [hparams]
    rfl
  unfold loadConfig at h
  rw [hobj] at h
  cases hsen : (jsLookup obj "sealEngine").bind Js.getStr with
  | none => simp [hsen, hpb] at h
  | some sen =>
  cases hasn : (getStrKey params "accountStartNonce").bind hexToU256 with
  | none => simp [hsen, hpb, hasn] at h
  | some asn =>
  cases hmeds : (getStrKey params "maximumExtraDataSize").bind hexToU256 with
  | none => simp [hsen, hpb, hasn, hmeds] at h
  | some meds =>
  cases htbg : (if jsHas params "tieBreakingGas" then
      (jsLookup params "tieBreakingGas").bind Js.getBool else some true) with
  | none => simp [hsen, hpb, hasn, hmeds, htbg] at h
  | some tbg =>
  cases hbr : (getStrKey params "blockReward").bind hexToU256 with
  | none => simp [hsen, hpb, hasn, hmeds, htbg, hbr] at h
  | some br =>
  cases hops : otherOf params (ChainParams.copy base).otherParams with
  | none => simp [hsen, hpb, hasn, hmeds, htbg, hbr, hops] at h
  | some ops =>
  cases hgen : (if ig then
      (match jsLookup obj "genesis" with
       | none => none
       | some gv => (setGenesis tr gv sra { ChainParams.copy base with
           sealEngineName := sen, accountStartNonce := asn, maximumExtraDataSize := meds,
           tieBreakingGas := tbg, blockReward := br, otherParams := ops }).map (fun _ => ()))
      else some ()) with
  | none => simp [hsen, hpb, hasn, hmeds, htbg, hbr, hops, hgen] at h
  | some u =>
  cases hav : jsLookup obj "accounts" with
  | none => simp [hsen, hpb, hasn, hmeds, htbg, hbr, hops, hgen, hav] at h
  | some av =>
  cases hsg : setGenesisState av [] { ChainParams.copy base with
      sealEngineName := sen, accountStartNonce := asn, maximumExtraDataSize := meds,
      tieBreakingGas := tbg, blockReward := br, otherParams := ops } with
  | none => simp [hsen, hpb, hasn, hmeds, htbg, hbr, hops, hgen, hav, hsg] at h
  | some fin =>
  simp only [hsen, hpb, hasn, hmeds, htbg, hbr, hops, hgen, hav, hsg] at h
  cases h
  have hacc : (ChainParams.copy base).otherParams = [] := by
    show apCopy base.otherParams = []
    rw [hbase]
    rfl
  rw [hacc] at hops
  constructor
  · intro k
    have := otherOf_lookup params [] ops hnd hops k
    show apLookup ops k = _
    rw [this]
    cases hcase : (if isNamedParam k then none
        else (jsLookup params k).bind Js.getStr : Option String) <;> rfl
  · intro hno
    have hhas : jsHas params "tieBreakingGas" = false := by
      unfold jsHas
      rw [hno]
      rfl
    rw [if_neg (by simp [hhas])] at htbg
    cases htbg
    rfl

def wParams8 : List (String × Js) :=
  [("accountStartNonce", .str "0x00"), ("maximumExtraDataSize", .str "0x20"),
   ("blockReward", .str "0x00"), ("frontierCompatibilityModeLimit", .str "0x10")]

def wObj8 : List (String × Js) :=
  [("sealEngine", .str "NoProof"), ("params", .obj wParams8), ("accounts", .obj [])]

def wCfg8out : ChainParams :=
  { zeroCP with
    sealEngineName := "NoProof", maximumExtraDataSize := 0x20,
    otherParams := [("frontierCompatibilityModeLimit", "0x10")] }

theorem loadConfig_otherParams_witness :
    apLookup wCfg8out.otherParams "frontierCompatibilityModeLimit" = some "0x10" ∧
    apLookup wCfg8out.otherParams "blockReward" = none ∧
    wCfg8out.tieBreakingGas = true :=
  have hmain := loadConfig_otherParams (fun _ => 0) wObj8 wParams8 false 0 zeroCP wCfg8out
    rfl (by decide) rfl (by decide)
  ⟨(hmain.1 "frontierCompatibilityModeLimit").trans (by decide),
   (hmain.1 "blockReward").trans (by decide),
   hmain.2 rfl⟩

/-! ## Claim C3: the end-to-end example through `loadConfig`.
The source discards the `ChainParams` values returned by `setGenesis`
(line 124) and `setGenesisState` (line 129) — the parses run, and their
failures propagate, but the results never reach the returned value, which
keeps the base's genesis fields and genesis state.  On the spec's
end-to-end example the decoded `gasLimit` of the produced genesis block is
therefore `0`, not `0x2fefd8`. -/

def exampleCfg : Js := .obj [
  ("sealEngine", .str "NoProof"),
  ("params", .obj [("accountStartNonce", .str "0x00"),
    ("maximumExtraDataSize", .str "0x20"), ("blockReward", .str "0x00")]),
  ("genesis", .obj [
    ("parentHash",
     .str "0x0000000000000000000000000000000000000000000000000000000000000000"),
    ("author", .str "0x0000000000000000000000000000000000000000"),
    ("gasLimit", .str "0x2fefd8"), ("timestamp", .str "0x00"), ("extraData", .str "0x")]),
  ("accounts", .obj [])]

/-- A trie commitment agreeing with the empty-trie constant on the empty
account map, as the external trie guarantees. -/
def trEx : AccountMap → Nat := fun m => if m = [] then emptyTrieHash else 0

/-- What `loadConfig` actually returns on the example: the base with only
the seal-engine name and `params` fields set. -/
def exampleOutCP : ChainParams :=
  { zeroCP with sealEngineName := "NoProof", maximumExtraDataSize := 0x20 }

set_option maxRecDepth 10000 in
/-- Claim C3, evaluated at the spec's end-to-end example (code bug):
`loadConfig` succeeds but drops the results of `setGenesis` and
`setGenesisState`, so the produced genesis block decodes `gasLimit = 0`
instead of `0x2fefd8` (the state-root item equals the empty-trie hash only
because the base's empty `genesisState` is still in place). -/
theorem loadConfig_example_gasLimit_lost :
    loadConfig trEx exampleCfg true 0 zeroCP = some exampleOutCP ∧
    exampleOutCP.gasLimit = 0 ∧ (0 : Nat) ≠ 0x2fefd8 ∧
    ((headerItemsOf (genesisBlock trEx exampleOutCP)).bind (fun l => l[9]?)).bind
       (toNatLe 32) = some 0 ∧
    ((headerItemsOf (genesisBlock trEx exampleOutCP)).bind (fun l => l[3]?)).bind
       (toH 32) = some emptyTrieHash := by
  decide
